import Mathlib

/-!
Verification of the `automerge_orm` transactional entity-persistence layer.

The development shallowly embeds the core of the crate:

* `Key` models `automerge_orm::Key<T>` (`src/key.rs`), a phantom-typed wrapper
  around a 128-bit UUID value; its canonical string form and parsing follow the
  hyphenated UUID encoding.
* `DocState` models the automerge document root as an association list from
  property names to values, where a value is either a nested map object (a
  "table") or some non-map value.
* `get_table`, `create_table`, `find`, `find_all` model the primitive document
  operations of `src/impls.rs`; `insert`, `get_or_insert`, `update`, `upsert`,
  `remove` model the methods of `Transaction` in `src/transaction.rs`;
  `transact` models `EntityManager::transact` in `src/entity_manager.rs`.

Stateful Rust methods taking `&mut self` become functions returning the new
document state paired with an `Except` result, so frame conditions ("performs
no write") are explicit equalities on the returned state.
-/

namespace AutomergeOrm

/-! ## UUID canonical string form

Modelled from the spec: the `uuid` crate used by `src/key.rs` is an external
collaborator; the spec requires a canonical string form for a 128-bit value
that round-trips through parsing and is unique per distinct value.  We model
the standard hyphenated lowercase-hex encoding (8-4-4-4-12 digits) produced by
the UUID `Display` implementation, and the parser accepting that encoding. -/

/-- Lowercase hexadecimal digit for a value below 16. -/
def hexDigit (n : Nat) : Char :=
  if n < 10 then Char.ofNat (48 + n) else Char.ofNat (87 + n)

/-- Value of a hexadecimal digit character, lower- or uppercase. -/
def hexVal (c : Char) : Option Nat :=
  if 48 ≤ c.toNat ∧ c.toNat ≤ 57 then some (c.toNat - 48)
  else if 97 ≤ c.toNat ∧ c.toNat ≤ 102 then some (c.toNat - 87)
  else if 65 ≤ c.toNat ∧ c.toNat ≤ 70 then some (c.toNat - 55)
  else none

/-- The `k`-digit hexadecimal rendering of `v`, most significant digit first. -/
def toHexDigits : Nat → Nat → List Char
  | 0, _ => []
  | k + 1, v => hexDigit (v / 16 ^ k) :: toHexDigits k (v % 16 ^ k)

/-- Consume exactly `k` hexadecimal digits, extending the accumulator `acc`. -/
def takeHex : Nat → Nat → List Char → Option (Nat × List Char)
  | 0, acc, s => some (acc, s)
  | k + 1, acc, c :: s =>
    match hexVal c with
    | some d => takeHex k (acc * 16 + d) s
    | none => none
  | _ + 1, _, [] => none

/-- The canonical hyphenated string of the 128-bit value `v`
(groups of 8, 4, 4, 4 and 12 hex digits). -/
def uuidChars (v : Nat) : List Char :=
  toHexDigits 8 (v / 16 ^ 24) ++ '-' :: toHexDigits 4 (v / 16 ^ 20 % 16 ^ 4)
    ++ '-' :: toHexDigits 4 (v / 16 ^ 16 % 16 ^ 4)
    ++ '-' :: toHexDigits 4 (v / 16 ^ 12 % 16 ^ 4)
    ++ '-' :: toHexDigits 12 (v % 16 ^ 12)

/-- Canonical string form of a 128-bit value, as produced by UUID `Display`. -/
def uuidToString (v : Nat) : String :=
  String.mk (uuidChars v)

/-- Parse a hyphenated UUID string back into its 128-bit value: five groups
of 8, 4, 4, 4 and 12 hexadecimal digits separated by hyphens. -/
def parseUuid (s : String) : Option Nat :=
  match takeHex 8 0 s.data with
  | some (a, c1 :: r1) =>
    if c1 = '-' then
      match takeHex 4 a r1 with
      | some (a, c2 :: r2) =>
        if c2 = '-' then
          match takeHex 4 a r2 with
          | some (a, c3 :: r3) =>
            if c3 = '-' then
              match takeHex 4 a r3 with
              | some (a, c4 :: r4) =>
                if c4 = '-' then
                  match takeHex 12 a r4 with
                  | some (a, []) => some a
                  | _ => none
                else none
              | _ => none
            else none
          | _ => none
        else none
      | _ => none
    else none
  | _ => none

/-! ## Typed keys (`src/key.rs`) -/

/-- Model of `Key<T>`: a 128-bit UUID value tagged with a phantom entity type.
Equality is derived from the wrapped value only. -/
structure Key (T : Type) where
  val : Nat

instance {T : Type} : DecidableEq (Key T) := fun a b =>
  match a, b with
  | ⟨v⟩, ⟨w⟩ =>
    if h : v = w then .isTrue (by rw [h]) else .isFalse (by simp [h])

/-- Model of `Key::<T>::new(uuid)`. -/
def Key.new (T : Type) (v : Nat) : Key T :=
  ⟨v⟩

/-- Model of the `Display` implementation for `Key<T>`: displays the wrapped
UUID value. -/
def Key.toString {T : Type} (k : Key T) : String :=
  uuidToString k.val

/-- Model of `TryFrom<&str> for Key<T>`: parses the string as a UUID; a parse
failure becomes `InvalidKey` carrying the offending string. -/
def Key.tryFrom (T : Type) (s : String) : Except String (Key T) :=
  match parseUuid s with
  | some v => .ok (Key.new T v)
  | none => .error s

/-! ## Document model

The automerge document root is a map from property names to values; each value
is either a nested map object (a table, whose properties hold the serialized
entities) or a value of some other type.  Entity serializations are drawn from
an abstract representation type `Rep`, since `autosurgeon`'s
`reconcile`/`hydrate` are an opaque external capability. -/

/-- A value stored at a root property: a map object or any non-map value. -/
inductive DocValue (Rep : Type) where
  | map (entries : List (String × Rep))
  | other
deriving DecidableEq

/-- The document state: the root map, as an association list. -/
abbrev DocState (Rep : Type) :=
  List (String × DocValue Rep)

/-- Association-list lookup, modelling `get` on an automerge map. -/
def lookupProp {α : Type} : List (String × α) → String → Option α
  | [], _ => none
  | (k, v) :: t, p => if k = p then some v else lookupProp t p

/-- Association-list overwrite-or-append, modelling `put` on an automerge map. -/
def setProp {α : Type} : List (String × α) → String → α → List (String × α)
  | [], p, v => [(p, v)]
  | (k, w) :: t, p, v => if k = p then (p, v) :: t else (k, w) :: setProp t p v

/-- Association-list deletion, modelling `delete` on an automerge map;
deleting an absent property is a no-op, not an error. -/
def delProp {α : Type} : List (String × α) → String → List (String × α)
  | [], _ => []
  | (k, w) :: t, p => if k = p then t else (k, w) :: delProp t p

/-- Model of the crate's `Error` enum (`src/error.rs`), restricted to the
variants produced by the embedded operations.  `Eu` is the caller-supplied
error type wrapped by `TransactionAborted`. -/
inductive Error (Eu : Type) where
  | automergeInvalidValueType
  | autosurgeonHydrate
  | invalidKey (key : String)
  | keyMismatch (actual : Nat) (expected : Nat) (msg : String)
  | objectAlreadyExists (table_name : String) (id : Nat)
  | objectDoesNotExist (table_name : String) (id : Nat)
  | transactionAborted (e : Eu)
deriving DecidableEq

/-- The capabilities an entity type provides: the `Mapped` trait's table name,
the `Keyed` trait's key accessor, and the opaque `Reconcile`/`Hydrate`
serialization capability into the representation type `Rep`.  `type_name`
models `std::any::type_name::<T>()`. -/
structure EntityModel (T Rep : Type) where
  table_name : String
  type_name : String
  id : T → Key T
  reconcile : T → Rep
  hydrate : Rep → Option T

variable {T Rep Eu O : Type}

/-- Model of `get_table` (`src/impls.rs`): looks up the root property named by
the table name.  Absent is `none`; a non-map value is an `InvalidValueType`
error.  The returned object id is modelled by the table name, which uniquely
addresses the table object at the root.  Read-only. -/
def get_table (Eu : Type) (ET : EntityModel T Rep) (s : DocState Rep) :
    Except (Error Eu) (Option String) :=
  match lookupProp s ET.table_name with
  | none => .ok none
  | some (.map _) => .ok (some ET.table_name)
  | some .other => .error .automergeInvalidValueType

/-- Model of `create_table` (`src/impls.rs`): unconditionally puts a fresh
empty map object at the root under the table name, returning its id. -/
def create_table (ET : EntityModel T Rep) (s : DocState Rep) :
    String × DocState Rep :=
  (ET.table_name, setProp s ET.table_name (.map []))

/-- Read a property of the object `oid`, modelling `doc.get(&oid, Prop::Map p)`
for a table object id obtained from `get_table`. -/
def objGet (s : DocState Rep) (oid p : String) : Option Rep :=
  match lookupProp s oid with
  | some (.map m) => lookupProp m p
  | _ => none

/-- Model of `reconcile_prop`: serialize a representation into property `p` of
the map object `oid`. -/
def reconcileProp (s : DocState Rep) (oid p : String) (r : Rep) : DocState Rep :=
  match lookupProp s oid with
  | some (.map m) => setProp s oid (.map (setProp m p r))
  | _ => s

/-- Model of `delete` on the map object `oid`. -/
def deleteProp (s : DocState Rep) (oid p : String) : DocState Rep :=
  match lookupProp s oid with
  | some (.map m) => setProp s oid (.map (delProp m p))
  | _ => s

/-- Model of `find` (`src/impls.rs`): absent table or absent property is
`Ok(None)`; otherwise the stored representation is hydrated, a hydration
failure propagating as an error.  Read-only. -/
def find (Eu : Type) (ET : EntityModel T Rep) (id : Key T) (s : DocState Rep) :
    Except (Error Eu) (Option T) :=
  match get_table Eu ET s with
  | .error er => .error er
  | .ok none => .ok none
  | .ok (some table_id) =>
    match objGet s table_id id.toString with
    | none => .ok none
    | some r =>
      match ET.hydrate r with
      | some e => .ok (some e)
      | none => .error .autosurgeonHydrate

/-- Model of `Transaction::insert` (`src/transaction.rs`): resolves or creates
the table; if a property already exists at `entity.id().to_string()` fails
with `ObjectAlreadyExists`; otherwise reconciles the entity into that
property. -/
def insert (Eu : Type) (ET : EntityModel T Rep) (e : T) (s : DocState Rep) :
    DocState Rep × Except (Error Eu) Unit :=
  match get_table Eu ET s with
  | .error er => (s, .error er)
  | .ok (some table_id) =>
    if (objGet s table_id (ET.id e).toString).isSome then
      (s, .error (.objectAlreadyExists ET.table_name (ET.id e).val))
    else
      (reconcileProp s table_id (ET.id e).toString (ET.reconcile e), .ok ())
  | .ok none =>
    let ts := create_table ET s
    (reconcileProp ts.2 ts.1 (ET.id e).toString (ET.reconcile e), .ok ())

/-- The message string of the `KeyMismatch` error raised by `get_or_insert`. -/
def keyMismatchMsg (ET : EntityModel T Rep) : String :=
  "key obtained from `<" ++ ET.type_name ++
    " as automerge_orm::Keyed>::id()` does not match provided `id` key"

/-- Model of `Transaction::get_or_insert` (`src/transaction.rs`): finds the
entity by `id`; if absent, constructs a candidate with `f`, rejects it with
`KeyMismatch` when its own id differs from `id`, and otherwise inserts it. -/
def get_or_insert (Eu : Type) (ET : EntityModel T Rep) (id : Key T) (f : Unit → T)
    (s : DocState Rep) : DocState Rep × Except (Error Eu) T :=
  match find Eu ET id s with
  | .error er => (s, .error er)
  | .ok (some e) => (s, .ok e)
  | .ok none =>
    let e := f ()
    if ET.id e ≠ id then
      (s, .error (.keyMismatch (ET.id e).val id.val (keyMismatchMsg ET)))
    else
      match insert Eu ET e s with
      | (s1, .ok _) => (s1, .ok e)
      | (s1, .error er) => (s1, .error er)

/-- Model of `Transaction::update` (`src/transaction.rs`): fails with
`ObjectDoesNotExist` when the table is absent or has no property at
`entity.id().to_string()`; otherwise reconciles the entity into that
property.  Never creates a table. -/
def update (Eu : Type) (ET : EntityModel T Rep) (e : T) (s : DocState Rep) :
    DocState Rep × Except (Error Eu) Unit :=
  match get_table Eu ET s with
  | .error er => (s, .error er)
  | .ok none =>
    (s, .error (.objectDoesNotExist ET.table_name (ET.id e).val))
  | .ok (some table_id) =>
    if (objGet s table_id (ET.id e).toString).isNone then
      (s, .error (.objectDoesNotExist ET.table_name (ET.id e).val))
    else
      (reconcileProp s table_id (ET.id e).toString (ET.reconcile e), .ok ())

/-- Model of `Transaction::upsert` (`src/transaction.rs`): resolves or creates
the table, then unconditionally reconciles the entity into the property at
`entity.id().to_string()`. -/
def upsert (Eu : Type) (ET : EntityModel T Rep) (e : T) (s : DocState Rep) :
    DocState Rep × Except (Error Eu) Unit :=
  match get_table Eu ET s with
  | .error er => (s, .error er)
  | .ok (some table_id) =>
    (reconcileProp s table_id (ET.id e).toString (ET.reconcile e), .ok ())
  | .ok none =>
    let ts := create_table ET s
    (reconcileProp ts.2 ts.1 (ET.id e).toString (ET.reconcile e), .ok ())

/-- Model of `Transaction::remove` (`src/transaction.rs`): absent table is a
successful no-op; otherwise the property at `id.to_string()` is deleted. -/
def remove (Eu : Type) (ET : EntityModel T Rep) (id : Key T) (s : DocState Rep) :
    DocState Rep × Except (Error Eu) Unit :=
  match get_table Eu ET s with
  | .error er => (s, .error er)
  | .ok none => (s, .ok ())
  | .ok (some table_id) =>
    (deleteProp s table_id id.toString, .ok ())

/-- Insertion into the model of `BTreeMap<String, T>` kept as a key-sorted
association list; an existing binding for the key is replaced. -/
def btreeInsert {β : Type} (k : String) (v : β) :
    List (String × β) → List (String × β)
  | [] => [(k, v)]
  | (k', v') :: t =>
    if k < k' then (k, v) :: (k', v') :: t
    else if k = k' then (k, v) :: t
    else (k', v') :: btreeInsert k v t

/-- Hydrate every property of a table into a `BTreeMap` model, failing if any
single hydration fails. -/
def hydrateTable (ET : EntityModel T Rep) :
    List (String × Rep) → Option (List (String × T))
  | [] => some []
  | (k, r) :: t =>
    match ET.hydrate r with
    | none => none
    | some e =>
      match hydrateTable ET t with
      | none => none
      | some rest => some (btreeInsert k e rest)

/-- Model of `find_all` (`src/impls.rs`): an absent table yields the empty
map; otherwise the whole table object is hydrated into a
`BTreeMap<String, T>`.  Read-only. -/
def find_all (Eu : Type) (ET : EntityModel T Rep) (s : DocState Rep) :
    Except (Error Eu) (List (String × T)) :=
  match get_table Eu ET s with
  | .error er => .error er
  | .ok none => .ok []
  | .ok (some table_id) =>
    match lookupProp s table_id with
    | some (.map m) =>
      match hydrateTable ET m with
      | some l => .ok l
      | none => .error .autosurgeonHydrate
    | _ => .error .autosurgeonHydrate

/-- Model of `EntityManager::transact` (`src/entity_manager.rs`): runs the
caller-supplied function on a transaction opened over the current document
state; on `Ok` the staged state is committed, on `Err(e)` the transaction is
rolled back (the staged state is discarded) and `TransactionAborted(e)` is
surfaced.  The function `f` maps the opened transaction state to its result
together with the transaction state after its queued writes. -/
def transact (f : DocState Rep → Except Eu O × DocState Rep)
    (d : DocState Rep) : Except (Error Eu) O × DocState Rep :=
  match f d with
  | (.ok o, s1) => (.ok o, s1)
  | (.error e, _) => (.error (.transactionAborted e), d)

/-! ## Association-list lemmas -/

theorem lookupProp_setProp_self {α : Type} (l : List (String × α)) (p : String)
    (v : α) : lookupProp (setProp l p v) p = some v := by
  induction l with
  | nil => simp [setProp, lookupProp]
  | cons hd t ih =>
    obtain ⟨k, w⟩ := hd
    by_cases hk : k = p
    · simp [setProp, hk, lookupProp]
    · simp [setProp, hk, lookupProp, ih]

theorem lookupProp_setProp_ne {α : Type} (l : List (String × α)) (p q : String)
    (v : α) (h : q ≠ p) : lookupProp (setProp l p v) q = lookupProp l q := by
  have hpq : p ≠ q := Ne.symm h
  induction l with
  | nil => simp [setProp, lookupProp, hpq]
  | cons hd t ih =>
    obtain ⟨k, w⟩ := hd
    by_cases hk : k = p
    · subst hk
      simp [setProp, lookupProp, hpq]
    · simp [setProp, hk, lookupProp, ih]

theorem setProp_setProp_self {α : Type} (l : List (String × α)) (p : String)
    (v w : α) : setProp (setProp l p v) p w = setProp l p w := by
  induction l with
  | nil => simp [setProp]
  | cons hd t ih =>
    obtain ⟨k, u⟩ := hd
    by_cases hk : k = p
    · simp [setProp, hk]
    · simp [setProp, hk, ih]

theorem setProp_lookup_eq {α : Type} (l : List (String × α)) (p : String)
    (v : α) (h : lookupProp l p = some v) : setProp l p v = l := by
  induction l with
  | nil => simp [lookupProp] at h
  | cons hd t ih =>
    obtain ⟨k, u⟩ := hd
    by_cases hk : k = p
    · subst hk
      simp [lookupProp] at h
      simp [setProp, h]
    · simp [lookupProp, hk] at h
      simp [setProp, hk, ih h]

theorem delProp_of_absent {α : Type} (l : List (String × α)) (p : String)
    (h : lookupProp l p = none) : delProp l p = l := by
  induction l with
  | nil => simp [delProp]
  | cons hd t ih =>
    obtain ⟨k, u⟩ := hd
    by_cases hk : k = p
    · simp [lookupProp, hk] at h
    · simp [lookupProp, hk] at h
      simp [delProp, hk, ih h]

/-! ## A concrete entity instantiation used by the witnesses

`BookT` is a minimal concrete entity: the first component is the raw key
value, serialization is the identity, and hydration always succeeds. -/

abbrev BookT := Nat × Nat

def bookModel : EntityModel BookT BookT where
  table_name := "book"
  type_name := "Book"
  id := fun b => ⟨b.1⟩
  reconcile := fun b => b
  hydrate := fun r => some r

/-- A document whose `book` table holds one entity under the key string of 0. -/
def wsTable : DocState BookT :=
  [("book", DocValue.map [(uuidToString 0, (0, 4))])]

/-! ## Claim theorems -/

/-- Claim C1: for every document state and every caller-supplied function `f`,
if `f` applied to the open transaction returns `Err(e)`, then `transact` rolls
the transaction back and returns `TransactionAborted(e)`, and the document
state after the call equals the document state before the call; none of the
writes queued inside `f` become visible. -/
theorem transact_aborted_rolls_back {Rep Eu O : Type}
    (f : DocState Rep → Except Eu O × DocState Rep) (d : DocState Rep) (e : Eu)
    (h : (f d).1 = .error e) :
    transact f d = (.error (.transactionAborted e), d) := by
  unfold transact
  cases hf : f d with
  | mk r s1 =>
    rw [hf] at h
    cases r with
    | ok o => simp at h
    | error e1 =>
      simp only at h
      cases h
      rfl

/-- A caller-supplied transaction function that queues a write and then
fails; used to witness claim C1. -/
def failingTxFn : DocState BookT → Except Nat Unit × DocState BookT :=
  fun s => (.error 7, setProp s "book" (DocValue.map []))

theorem transact_aborted_rolls_back_witness :
    transact failingTxFn [] = (.error (.transactionAborted 7), []) :=
  transact_aborted_rolls_back failingTxFn [] 7 rfl

/-- Claim C2: for every transaction state in which the entity's table exists
and already has a property named `entity.id().to_string()`, `insert(entity)`
fails with `ObjectAlreadyExists` carrying that table name and id, and performs
no write: the transaction state after the failed call equals the state before
it. -/
theorem insert_existing_fails (Eu : Type) {T Rep : Type}
    (ET : EntityModel T Rep) (e : T) (s : DocState Rep)
    (m : List (String × Rep))
    (h1 : lookupProp s ET.table_name = some (.map m))
    (h2 : (lookupProp m (ET.id e).toString).isSome) :
    insert Eu ET e s
      = (s, .error (.objectAlreadyExists ET.table_name (ET.id e).val)) := by
  obtain ⟨r, hr⟩ := Option.isSome_iff_exists.mp h2
  unfold insert get_table objGet
  simp [h1, hr]

theorem insert_existing_fails_witness :
    insert Unit bookModel (0, 5) wsTable
      = (wsTable, .error (.objectAlreadyExists "book" 0)) :=
  insert_existing_fails Unit bookModel (0, 5) wsTable
    [(uuidToString 0, (0, 4))] rfl rfl

/-- Claim C4: for every transaction state in which an entity with identifier
`id` is already stored, `get_or_insert(id, f)` returns `Ok` of the stored
entity without invoking any write: the state after the call equals the state
before it, and this holds for every constructor `f`, whose result is never
written. -/
theorem get_or_insert_existing_no_write (Eu : Type) {T Rep : Type}
    (ET : EntityModel T Rep) (id : Key T) (e0 : T) (s : DocState Rep)
    (h : find Eu ET id s = .ok (some e0)) :
    ∀ f : Unit → T, get_or_insert Eu ET id f s = (s, .ok e0) := by
  intro f
  unfold get_or_insert
  rw [h]

theorem get_or_insert_existing_no_write_witness :
    get_or_insert Unit bookModel ⟨0⟩ (fun _ => (0, 9)) wsTable
      = (wsTable, .ok (0, 4)) :=
  get_or_insert_existing_no_write Unit bookModel ⟨0⟩ (0, 4) wsTable rfl
    (fun _ => (0, 9))

/-- Claim C5: for every transaction state in which no entity with identifier
`id` is stored, and every constructor `f` whose produced entity's own id
differs from `id`, `get_or_insert(id, f)` fails with `KeyMismatch` carrying
the actual and expected identifiers, and performs no mutation: the state after
the failed call equals the state before it. -/
theorem get_or_insert_mismatch_fails (Eu : Type) {T Rep : Type}
    (ET : EntityModel T Rep) (id : Key T) (f : Unit → T) (s : DocState Rep)
    (h1 : find Eu ET id s = .ok none) (h2 : ET.id (f ()) ≠ id) :
    get_or_insert Eu ET id f s
      = (s, .error (.keyMismatch (ET.id (f ())).val id.val
          (keyMismatchMsg ET))) := by
  unfold get_or_insert
  rw [h1]
  simp [h2]

theorem get_or_insert_mismatch_fails_witness :
    get_or_insert Unit bookModel ⟨1⟩ (fun _ => (2, 9)) wsTable
      = (wsTable, .error (.keyMismatch 2 1 (keyMismatchMsg bookModel))) :=
  get_or_insert_mismatch_fails Unit bookModel ⟨1⟩ (fun _ => (2, 9)) wsTable
    rfl (by decide)

/-- Claim C6: `update(entity)` fails with `ObjectDoesNotExist` (carrying table
name and id) when the entity's table is absent, or when the table exists but
has no property named `entity.id().to_string()`; in both failure cases the
transaction state is unchanged, so in particular no table is created.  When
the property exists, `update(entity)` overwrites that property with the
entity's current fields. -/
theorem update_spec (Eu : Type) {T Rep : Type} (ET : EntityModel T Rep)
    (e : T) (s : DocState Rep) :
    (lookupProp s ET.table_name = none →
      update Eu ET e s
        = (s, .error (.objectDoesNotExist ET.table_name (ET.id e).val))) ∧
    (∀ m, lookupProp s ET.table_name = some (.map m) →
      lookupProp m (ET.id e).toString = none →
      update Eu ET e s
        = (s, .error (.objectDoesNotExist ET.table_name (ET.id e).val))) ∧
    (∀ m, lookupProp s ET.table_name = some (.map m) →
      (lookupProp m (ET.id e).toString).isSome →
      update Eu ET e s
        = (setProp s ET.table_name
            (.map (setProp m (ET.id e).toString (ET.reconcile e))), .ok ())) := by
  refine ⟨fun h1 => ?_, fun m h1 h2 => ?_, fun m h1 h2 => ?_⟩
  · unfold update get_table
    simp [h1]
  · unfold update get_table objGet
    simp [h1, h2]
  · obtain ⟨r, hr⟩ := Option.isSome_iff_exists.mp h2
    unfold update get_table objGet reconcileProp
    simp [h1, hr]

theorem update_spec_witness :
    update Unit bookModel (0, 5) ([] : DocState BookT)
        = ([], .error (.objectDoesNotExist "book" 0)) ∧
    update Unit bookModel (1, 5) wsTable
        = (wsTable, .error (.objectDoesNotExist "book" 1)) ∧
    update Unit bookModel (0, 5) wsTable
        = ([("book", DocValue.map [(uuidToString 0, (0, 5))])], .ok ()) := by
  refine ⟨(update_spec Unit bookModel (0, 5) []).1 rfl,
    (update_spec Unit bookModel (1, 5) wsTable).2.1
      [(uuidToString 0, (0, 4))] rfl ?_,
    ?_⟩
  · exact lookupProp_setProp_ne [] (uuidToString 0) (uuidToString 1) (0, 4)
      (by decide)
  · have h := (update_spec Unit bookModel (0, 5) wsTable).2.2
      [(uuidToString 0, (0, 4))] rfl rfl
    rw [h]
    rfl

/-- Claim C8: for every identifier `id` not present as a property — whether
the entity's table is absent, or the table is present but has no property
named `id.to_string()` — `remove(id)` returns `Ok` and leaves the transaction
state unchanged; absence is never an error for `remove`. -/
theorem remove_absent_no_op (Eu : Type) {T Rep : Type}
    (ET : EntityModel T Rep) (id : Key T) (s : DocState Rep)
    (h : lookupProp s ET.table_name = none ∨
      ∃ m, lookupProp s ET.table_name = some (.map m) ∧
        lookupProp m id.toString = none) :
    remove Eu ET id s = (s, .ok ()) := by
  rcases h with h1 | ⟨m, h1, h2⟩
  · unfold remove get_table
    simp [h1]
  · unfold remove get_table deleteProp
    simp only [h1]
    rw [delProp_of_absent m id.toString h2]
    rw [setProp_lookup_eq s ET.table_name (.map m) h1]

theorem remove_absent_no_op_witness :
    remove Unit bookModel ⟨1⟩ wsTable = (wsTable, .ok ()) :=
  remove_absent_no_op Unit bookModel ⟨1⟩ wsTable
    (Or.inr ⟨[(uuidToString 0, (0, 4))], rfl,
      lookupProp_setProp_ne [] (uuidToString 0) (uuidToString 1) (0, 4)
        (by decide)⟩)

/-! ## Equation lemmas for `insert` and `upsert` -/

theorem insert_absent_eq (Eu : Type) {T Rep : Type} (ET : EntityModel T Rep)
    (e : T) (s : DocState Rep) (h : lookupProp s ET.table_name = none) :
    insert Eu ET e s = (setProp s ET.table_name
      (.map [((ET.id e).toString, ET.reconcile e)]), .ok ()) := by
  unfold insert get_table create_table reconcileProp
  simp only [h, lookupProp_setProp_self, setProp_setProp_self]
  rfl

theorem insert_present_eq (Eu : Type) {T Rep : Type} (ET : EntityModel T Rep)
    (e : T) (s : DocState Rep) (m : List (String × Rep))
    (h : lookupProp s ET.table_name = some (.map m))
    (hp : lookupProp m (ET.id e).toString = none) :
    insert Eu ET e s = (setProp s ET.table_name
      (.map (setProp m (ET.id e).toString (ET.reconcile e))), .ok ()) := by
  unfold insert get_table objGet reconcileProp
  simp [h, hp]

theorem find_written_table (Eu : Type) {T Rep : Type} (ET : EntityModel T Rep)
    (e : T) (s : DocState Rep) (m : List (String × Rep))
    (hrt : ET.hydrate (ET.reconcile e) = some e) :
    find Eu ET (ET.id e) (setProp s ET.table_name
        (.map (setProp m (ET.id e).toString (ET.reconcile e))))
      = .ok (some e) := by
  unfold find get_table objGet
  simp [lookupProp_setProp_self, hrt]

theorem upsert_absent_eq (Eu : Type) {T Rep : Type} (ET : EntityModel T Rep)
    (e : T) (s : DocState Rep) (h : lookupProp s ET.table_name = none) :
    upsert Eu ET e s = (setProp s ET.table_name
      (.map [((ET.id e).toString, ET.reconcile e)]), .ok ()) := by
  unfold upsert get_table create_table reconcileProp
  simp only [h, lookupProp_setProp_self, setProp_setProp_self]
  rfl

theorem upsert_present_eq (Eu : Type) {T Rep : Type} (ET : EntityModel T Rep)
    (e : T) (s : DocState Rep) (m : List (String × Rep))
    (h : lookupProp s ET.table_name = some (.map m)) :
    upsert Eu ET e s = (setProp s ET.table_name
      (.map (setProp m (ET.id e).toString (ET.reconcile e))), .ok ()) := by
  unfold upsert get_table reconcileProp
  simp [h]

theorem upsert_other_eq (Eu : Type) {T Rep : Type} (ET : EntityModel T Rep)
    (e : T) (s : DocState Rep)
    (h : lookupProp s ET.table_name = some .other) :
    upsert Eu ET e s = (s, .error .automergeInvalidValueType) := by
  unfold upsert get_table
  simp [h]

/-- Claim C3: for every entity `e` whose identifier is distinct from all
identifiers already present in its table (equivalently, whenever `insert(e)`
succeeds), `find` with `e.id()` on the resulting transaction state returns
`Some` of an entity equal to `e`, given that the opaque serialization
capability round-trips `e` (hydration of its reconciled form yields `e`
back). -/
theorem insert_find_roundtrip (Eu : Type) {T Rep : Type}
    (ET : EntityModel T Rep) (e : T) (s s1 : DocState Rep)
    (hrt : ET.hydrate (ET.reconcile e) = some e)
    (hins : insert Eu ET e s = (s1, .ok ())) :
    find Eu ET (ET.id e) s1 = .ok (some e) := by
  cases h : lookupProp s ET.table_name with
  | none =>
    rw [insert_absent_eq Eu ET e s h] at hins
    injection hins with h1 h2
    rw [← h1]
    exact find_written_table Eu ET e s [] hrt
  | some val =>
    cases val with
    | map m =>
      cases hp : lookupProp m (ET.id e).toString with
      | none =>
        rw [insert_present_eq Eu ET e s m h hp] at hins
        injection hins with h1 h2
        rw [← h1]
        exact find_written_table Eu ET e s m hrt
      | some r =>
        exfalso
        unfold insert get_table objGet at hins
        simp [h, hp] at hins
    | other =>
      exfalso
      unfold insert get_table at hins
      simp [h] at hins

theorem insert_find_roundtrip_witness :
    find Unit bookModel ⟨1⟩
        ((insert Unit bookModel ((1, 9) : BookT) wsTable).1)
      = .ok (some (1, 9)) :=
  insert_find_roundtrip Unit bookModel (1, 9) wsTable
    (insert Unit bookModel ((1, 9) : BookT) wsTable).1 rfl
    (by rw [insert_present_eq Unit bookModel (1, 9) wsTable
        [(uuidToString 0, (0, 4))] rfl
        (lookupProp_setProp_ne [] (uuidToString 0) (uuidToString 1) (0, 4)
          (by decide))])

/-- Claim C7: for every entity `e` and every starting transaction state,
applying `upsert(e)` twice in sequence yields a final state equal to the
state after applying `upsert(e)` once; and `upsert(e)` never fails due to the
existence or absence of the table or of the entity's property (its only
failure source is a non-map value occupying the table's root property). -/
theorem upsert_idempotent (Eu : Type) {T Rep : Type} (ET : EntityModel T Rep)
    (e : T) (s : DocState Rep) :
    upsert Eu ET e (upsert Eu ET e s).1 = upsert Eu ET e s ∧
    (lookupProp s ET.table_name ≠ some .other →
      (upsert Eu ET e s).2 = .ok ()) := by
  constructor
  · cases h : lookupProp s ET.table_name with
    | none =>
      rw [upsert_absent_eq Eu ET e s h]
      rw [upsert_present_eq Eu ET e _ [((ET.id e).toString, ET.reconcile e)]
        (lookupProp_setProp_self s ET.table_name _)]
      simp only [setProp_setProp_self]
      have hself : setProp [((ET.id e).toString, ET.reconcile e)]
          (ET.id e).toString (ET.reconcile e)
          = [((ET.id e).toString, ET.reconcile e)] := by
        simp [setProp]
      rw [hself]
    | some val =>
      cases val with
      | map m =>
        rw [upsert_present_eq Eu ET e s m h]
        rw [upsert_present_eq Eu ET e _ (setProp m (ET.id e).toString
          (ET.reconcile e)) (lookupProp_setProp_self s ET.table_name _)]
        simp only [setProp_setProp_self]
      | other =>
        rw [upsert_other_eq Eu ET e s h]
        rw [upsert_other_eq Eu ET e s h]
  · intro hne
    cases h : lookupProp s ET.table_name with
    | none => rw [upsert_absent_eq Eu ET e s h]
    | some val =>
      cases val with
      | map m => rw [upsert_present_eq Eu ET e s m h]
      | other => exact absurd h hne

theorem upsert_idempotent_witness :
    upsert Unit bookModel ((0, 5) : BookT)
        ((upsert Unit bookModel ((0, 5) : BookT) []).1)
      = upsert Unit bookModel ((0, 5) : BookT) [] ∧
    (upsert Unit bookModel ((0, 5) : BookT) ([] : DocState BookT)).2
      = .ok () :=
  ⟨(upsert_idempotent Unit bookModel (0, 5) []).1,
    (upsert_idempotent Unit bookModel (0, 5) []).2 (by decide)⟩

/-! ## Lemmas about `btreeInsert` and `hydrateTable`, for `find_all` -/

theorem btreeInsert_mem {β : Type} (k : String) (v : β)
    (l : List (String × β)) (x : String × β) (hx : x ∈ btreeInsert k v l) :
    x = (k, v) ∨ x ∈ l := by
  induction l with
  | nil =>
    unfold btreeInsert at hx
    exact Or.inl (List.mem_singleton.mp hx)
  | cons hd t ih =>
    obtain ⟨k1, v1⟩ := hd
    unfold btreeInsert at hx
    by_cases h1 : k < k1
    · rw [if_pos h1] at hx
      rcases List.mem_cons.mp hx with h | h
      · exact Or.inl h
      · exact Or.inr h
    · rw [if_neg h1] at hx
      by_cases h2 : k = k1
      · rw [if_pos h2] at hx
        rcases List.mem_cons.mp hx with h | h
        · exact Or.inl h
        · exact Or.inr (List.mem_cons_of_mem _ h)
      · rw [if_neg h2] at hx
        rcases List.mem_cons.mp hx with h | h
        · exact Or.inr (by simp [h])
        · rcases ih h with h3 | h3
          · exact Or.inl h3
          · exact Or.inr (List.mem_cons_of_mem _ h3)

theorem btreeInsert_sorted {β : Type} (k : String) (v : β)
    (l : List (String × β)) (hs : l.Pairwise (fun a b => a.1 < b.1)) :
    (btreeInsert k v l).Pairwise (fun a b => a.1 < b.1) := by
  induction l with
  | nil => unfold btreeInsert; simp
  | cons hd t ih =>
    obtain ⟨k1, v1⟩ := hd
    rw [List.pairwise_cons] at hs
    obtain ⟨hhd, ht⟩ := hs
    unfold btreeInsert
    by_cases h1 : k < k1
    · rw [if_pos h1]
      refine List.Pairwise.cons ?_ (List.Pairwise.cons hhd ht)
      intro x hx
      rcases List.mem_cons.mp hx with h | h
      · rw [h]; exact h1
      · exact lt_trans h1 (hhd x h)
    · rw [if_neg h1]
      by_cases h2 : k = k1
      · rw [if_pos h2]
        subst h2
        exact List.Pairwise.cons hhd ht
      · rw [if_neg h2]
        have h3 : k1 < k :=
          lt_of_le_of_ne (not_lt.mp h1) (fun hh => h2 hh.symm)
        refine List.Pairwise.cons ?_ (ih ht)
        intro x hx
        rcases btreeInsert_mem k v t x hx with h | h
        · rw [h]; exact h3
        · exact hhd x h

theorem btreeInsert_perm {β : Type} (k : String) (v : β)
    (l : List (String × β)) (hk : k ∉ l.map Prod.fst) :
    (btreeInsert k v l).Perm ((k, v) :: l) := by
  induction l with
  | nil => unfold btreeInsert; exact List.Perm.refl _
  | cons hd t ih =>
    obtain ⟨k1, v1⟩ := hd
    simp only [List.map_cons, List.mem_cons] at hk
    push_neg at hk
    obtain ⟨hk1, hkt⟩ := hk
    unfold btreeInsert
    by_cases h1 : k < k1
    · rw [if_pos h1]
    · rw [if_neg h1, if_neg hk1]
      exact ((ih hkt).cons _).trans (List.Perm.swap _ _ _)

/-- The relation between a stored representation entry and its hydrated
entry: same key, and hydration of the representation yields the value. -/
def hydRel (ET : EntityModel T Rep) (p : String × Rep) (q : String × T) :
    Prop :=
  q.1 = p.1 ∧ ET.hydrate p.2 = some q.2

theorem hydRel_rightUnique (ET : EntityModel T Rep) :
    Relator.RightUnique (hydRel ET) := by
  intro p q1 q2 h1 h2
  obtain ⟨hq1, he1⟩ := h1
  obtain ⟨hq2, he2⟩ := h2
  rw [he1] at he2
  obtain ⟨a1, b1⟩ := q1
  obtain ⟨a2, b2⟩ := q2
  simp only [Option.some.injEq] at he2
  simp only at hq1 hq2 he2
  simp [hq1, hq2, he2]

theorem forall₂_hydRel_keys (ET : EntityModel T Rep)
    {m : List (String × Rep)} {l : List (String × T)}
    (h : List.Forall₂ (hydRel ET) m l) : l.map Prod.fst = m.map Prod.fst := by
  induction h with
  | nil => rfl
  | cons h1 h2 ih => simp [ih, h1.1]

theorem hydrateTable_none_iff (ET : EntityModel T Rep)
    (m : List (String × Rep)) :
    hydrateTable ET m = none ↔ ∃ p ∈ m, ET.hydrate p.2 = none := by
  induction m with
  | nil => simp [hydrateTable]
  | cons hd t ih =>
    obtain ⟨k, r⟩ := hd
    unfold hydrateTable
    cases he : ET.hydrate r with
    | none =>
      simp only []
      constructor
      · intro _
        exact ⟨(k, r), List.mem_cons_self _ _, he⟩
      · intro _
        trivial
    | some e =>
      cases ht : hydrateTable ET t with
      | none =>
        simp only []
        obtain ⟨p, hp, hpn⟩ := ih.mp ht
        constructor
        · intro _
          exact ⟨p, List.mem_cons_of_mem _ hp, hpn⟩
        · intro _
          trivial
      | some rest =>
        simp only []
        constructor
        · intro h
          exact Option.noConfusion h
        · rintro ⟨p, hp, hpn⟩
          rcases List.mem_cons.mp hp with h | h
          · rw [h] at hpn
            simp only at hpn
            rw [he] at hpn
            exact Option.noConfusion hpn
          · have hnone : hydrateTable ET t = none := ih.mpr ⟨p, h, hpn⟩
            rw [ht] at hnone
            exact Option.noConfusion hnone

theorem hydrateTable_sorted (ET : EntityModel T Rep)
    (m : List (String × Rep)) (l : List (String × T))
    (hm : hydrateTable ET m = some l) :
    l.Pairwise (fun a b => a.1 < b.1) := by
  induction m generalizing l with
  | nil =>
    unfold hydrateTable at hm
    cases hm
    exact List.Pairwise.nil
  | cons hd t ih =>
    obtain ⟨k, r⟩ := hd
    unfold hydrateTable at hm
    cases he : ET.hydrate r with
    | none => rw [he] at hm; exact Option.noConfusion hm
    | some e =>
      rw [he] at hm
      cases ht : hydrateTable ET t with
      | none => rw [ht] at hm; exact Option.noConfusion hm
      | some rest =>
        rw [ht] at hm
        simp only [Option.some.injEq] at hm
        rw [← hm]
        exact btreeInsert_sorted k e rest (ih rest ht)

theorem hydrateTable_some_perm (ET : EntityModel T Rep)
    (m : List (String × Rep)) (l : List (String × T))
    (hm : hydrateTable ET m = some l) (hn : (m.map Prod.fst).Nodup) :
    ∃ l0, List.Forall₂ (hydRel ET) m l0 ∧ l.Perm l0 := by
  induction m generalizing l with
  | nil =>
    unfold hydrateTable at hm
    cases hm
    exact ⟨[], List.Forall₂.nil, List.Perm.refl _⟩
  | cons hd t ih =>
    obtain ⟨k, r⟩ := hd
    unfold hydrateTable at hm
    cases he : ET.hydrate r with
    | none => rw [he] at hm; exact Option.noConfusion hm
    | some e =>
      rw [he] at hm
      cases ht : hydrateTable ET t with
      | none => rw [ht] at hm; exact Option.noConfusion hm
      | some rest =>
        rw [ht] at hm
        simp only [Option.some.injEq] at hm
        simp only [List.map_cons, List.nodup_cons] at hn
        obtain ⟨hk, hn'⟩ := hn
        obtain ⟨l0, hf, hp⟩ := ih rest ht hn'
        refine ⟨(k, e) :: l0, List.Forall₂.cons ⟨rfl, he⟩ hf, ?_⟩
        have hkl0 : k ∉ l0.map Prod.fst := by
          rw [forall₂_hydRel_keys ET hf]
          exact hk
        have hkrest : k ∉ rest.map Prod.fst := by
          intro hmem
          exact hkl0 ((hp.map Prod.fst).mem_iff.mp hmem)
        rw [← hm]
        exact (btreeInsert_perm k e rest hkrest).trans (hp.cons _)

instance {β : Type} : IsAntisymm (String × β) (fun a b => a.1 < b.1) :=
  ⟨fun _ _ h1 h2 => absurd (lt_trans h1 h2) (lt_irrefl _)⟩

/-- Claim C10: `find_all` returns a `BTreeMap<String, T>` model, so for every
document its iteration order is lexicographic (ascending) on the canonical
identifier strings, deterministic and independent of the insertion order of
the underlying document's table entries; and when the table is absent the
returned map is exactly the empty map. -/
theorem find_all_spec (Eu : Type) {T Rep : Type} (ET : EntityModel T Rep)
    (s1 s2 : DocState Rep) (m1 m2 : List (String × Rep)) :
    (lookupProp s1 ET.table_name = none → find_all Eu ET s1 = .ok []) ∧
    (∀ l, find_all Eu ET s1 = .ok l → l.Pairwise (fun a b => a.1 < b.1)) ∧
    (lookupProp s1 ET.table_name = some (.map m1) →
      lookupProp s2 ET.table_name = some (.map m2) →
      m1.Perm m2 → (m1.map Prod.fst).Nodup →
      find_all Eu ET s1 = find_all Eu ET s2) := by
  refine ⟨fun h1 => ?_, fun l hl => ?_, fun h1 h2 hperm hnodup => ?_⟩
  · unfold find_all get_table
    simp [h1]
  · unfold find_all get_table at hl
    cases h : lookupProp s1 ET.table_name with
    | none =>
      rw [h] at hl
      simp at hl
      subst hl
      exact List.Pairwise.nil
    | some val =>
      cases val with
      | map m =>
        simp only [h] at hl
        cases hm : hydrateTable ET m with
        | none => rw [hm] at hl; simp at hl
        | some l1 =>
          rw [hm] at hl
          simp at hl
          subst hl
          exact hydrateTable_sorted ET m _ hm
      | other =>
        rw [h] at hl
        simp at hl
  · unfold find_all get_table
    simp only [h1, h2]
    cases hm1 : hydrateTable ET m1 with
    | none =>
      obtain ⟨p, hp, hpn⟩ := (hydrateTable_none_iff ET m1).mp hm1
      have hm2 : hydrateTable ET m2 = none :=
        (hydrateTable_none_iff ET m2).mpr ⟨p, hperm.mem_iff.mp hp, hpn⟩
      rw [hm2]
    | some l1 =>
      cases hm2 : hydrateTable ET m2 with
      | none =>
        obtain ⟨p, hp, hpn⟩ := (hydrateTable_none_iff ET m2).mp hm2
        have : hydrateTable ET m1 = none :=
          (hydrateTable_none_iff ET m1).mpr ⟨p, hperm.mem_iff.mpr hp, hpn⟩
        rw [hm1] at this
        exact Option.noConfusion this
      | some l2 =>
        have hnodup2 : (m2.map Prod.fst).Nodup :=
          ((hperm.map Prod.fst).nodup_iff).mp hnodup
        obtain ⟨l01, hf1, hp1⟩ := hydrateTable_some_perm ET m1 l1 hm1 hnodup
        obtain ⟨l02, hf2, hp2⟩ := hydrateTable_some_perm ET m2 l2 hm2 hnodup2
        have hl0 : l01.Perm l02 :=
          List.rel_perm_imp (hydRel_rightUnique ET) hf1 hf2 hperm
        have hl12 : l1.Perm l2 := (hp1.trans hl0).trans hp2.symm
        have hs1 := hydrateTable_sorted ET m1 l1 hm1
        have hs2 := hydrateTable_sorted ET m2 l2 hm2
        rw [List.eq_of_perm_of_sorted hl12 hs1 hs2]

/-- A second document holding the same two book entities in the opposite
insertion order; used to witness claim C10. -/
def wsTwoA : DocState BookT :=
  [("book", DocValue.map [(uuidToString 0, (0, 4)), (uuidToString 1, (1, 9))])]

def wsTwoB : DocState BookT :=
  [("book", DocValue.map [(uuidToString 1, (1, 9)), (uuidToString 0, (0, 4))])]

theorem find_all_spec_witness :
    find_all Unit bookModel ([] : DocState BookT) = .ok [] ∧
    find_all Unit bookModel wsTwoA = find_all Unit bookModel wsTwoB := by
  constructor
  · exact (find_all_spec Unit bookModel [] [] [] []).1 rfl
  · exact (find_all_spec Unit bookModel wsTwoA wsTwoB
      [(uuidToString 0, (0, 4)), (uuidToString 1, (1, 9))]
      [(uuidToString 1, (1, 9)), (uuidToString 0, (0, 4))]).2.2 rfl rfl
      (List.Perm.swap _ _ _) (by decide)

/-! ## Round-trip of the canonical key string form -/

theorem hexVal_hexDigit (d : Nat) (h : d < 16) : hexVal (hexDigit d) = some d := by
  interval_cases d <;> decide

theorem takeHex_cons_hexVal (k acc : Nat) (c : Char) (s : List Char) (d : Nat)
    (h : hexVal c = some d) :
    takeHex (k + 1) acc (c :: s) = takeHex k (acc * 16 + d) s := by
  conv_lhs => rw [takeHex]
  rw [h]

theorem takeHex_toHexDigits (k : Nat) :
    ∀ (acc v : Nat) (rest : List Char), v < 16 ^ k →
      takeHex k acc (toHexDigits k v ++ rest) = some (acc * 16 ^ k + v, rest) := by
  induction k with
  | zero =>
    intro acc v rest hv
    have hv0 : v = 0 := Nat.lt_one_iff.mp hv
    subst hv0
    simp [toHexDigits, takeHex]
  | succ k ih =>
    intro acc v rest hv
    have hdiv : v / 16 ^ k < 16 := by
      apply (Nat.div_lt_iff_lt_mul (by positivity)).mpr
      rw [Nat.mul_comm, ← pow_succ]
      exact hv
    unfold toHexDigits
    simp only [List.cons_append]
    rw [takeHex_cons_hexVal _ _ _ _ _ (hexVal_hexDigit _ hdiv)]
    rw [ih (acc * 16 + v / 16 ^ k) (v % 16 ^ k) rest
      (Nat.mod_lt _ (by positivity))]
    congr 2
    calc (acc * 16 + v / 16 ^ k) * 16 ^ k + v % 16 ^ k
        = acc * (16 ^ k * 16) + (16 ^ k * (v / 16 ^ k) + v % 16 ^ k) := by ring
      _ = acc * 16 ^ (k + 1) + v := by rw [Nat.div_add_mod, pow_succ]

theorem parseUuid_uuidToString (v : Nat) (h : v < 2 ^ 128) :
    parseUuid (uuidToString v) = some v := by
  have h1 : v / 16 ^ 24 < 16 ^ 8 := by
    apply (Nat.div_lt_iff_lt_mul (by positivity)).mpr
    calc v < 2 ^ 128 := h
      _ = 16 ^ 8 * 16 ^ 24 := by norm_num
  have h2 : v / 16 ^ 20 % 16 ^ 4 < 16 ^ 4 := Nat.mod_lt _ (by positivity)
  have h3 : v / 16 ^ 16 % 16 ^ 4 < 16 ^ 4 := Nat.mod_lt _ (by positivity)
  have h4 : v / 16 ^ 12 % 16 ^ 4 < 16 ^ 4 := Nat.mod_lt _ (by positivity)
  have h5 : v % 16 ^ 12 < 16 ^ 12 := Nat.mod_lt _ (by positivity)
  have step : ∀ j : Nat,
      v / 16 ^ (j + 4) * 16 ^ 4 + v / 16 ^ j % 16 ^ 4 = v / 16 ^ j := by
    intro j
    have hdd : v / 16 ^ (j + 4) = v / 16 ^ j / 16 ^ 4 := by
      rw [Nat.div_div_eq_div_mul, ← pow_add]
    rw [hdd, Nat.mul_comm]
    exact Nat.div_add_mod (v / 16 ^ j) (16 ^ 4)
  have s1 : v / 16 ^ 24 * 16 ^ 4 + v / 16 ^ 20 % 16 ^ 4 = v / 16 ^ 20 := step 20
  have s2 : v / 16 ^ 20 * 16 ^ 4 + v / 16 ^ 16 % 16 ^ 4 = v / 16 ^ 16 := step 16
  have s3 : v / 16 ^ 16 * 16 ^ 4 + v / 16 ^ 12 % 16 ^ 4 = v / 16 ^ 12 := step 12
  unfold parseUuid uuidToString uuidChars
  simp only [List.cons_append, List.append_assoc]
  rw [takeHex_toHexDigits 8 0 _ _ h1]
  simp only [List.cons_append, Nat.zero_mul, Nat.zero_add, if_pos]
  rw [takeHex_toHexDigits 4 _ _ _ h2]
  simp only [List.cons_append, if_pos]
  rw [takeHex_toHexDigits 4 _ _ _ h3]
  simp only [List.cons_append, if_pos]
  rw [takeHex_toHexDigits 4 _ _ _ h4]
  simp only [List.cons_append, if_pos]
  have hfin : ((v / 16 ^ 24 * 16 ^ 4 + v / 16 ^ 20 % 16 ^ 4) * 16 ^ 4
        + v / 16 ^ 16 % 16 ^ 4) * 16 ^ 4 + v / 16 ^ 12 % 16 ^ 4
      = v / 16 ^ 12 := by
    rw [s1, s2, s3]
  rw [← List.append_nil (toHexDigits 12 (v % 16 ^ 12))]
  rw [takeHex_toHexDigits 12 _ _ _ h5]
  rw [hfin]
  rw [Nat.mul_comm (v / 16 ^ 12) (16 ^ 12), Nat.div_add_mod]

/-- Claim C9: for every valid 128-bit value `v`, parsing the canonical string
form of `Key::new(v)` yields back `Key::new(v)`, and the canonical string
form is unique per distinct 128-bit value: `to_string` is injective on
keys. -/
theorem key_roundtrip_unique (T : Type) (v : Nat) (h : v < 2 ^ 128) :
    Key.tryFrom T (Key.toString (Key.new T v)) = .ok (Key.new T v) ∧
    ∀ w : Nat, w < 2 ^ 128 →
      Key.toString (Key.new T v) = Key.toString (Key.new T w) → v = w := by
  constructor
  · unfold Key.tryFrom Key.toString Key.new
    simp only
    rw [parseUuid_uuidToString v h]
  · intro w hw heq
    have hv := parseUuid_uuidToString v h
    have hw2 := parseUuid_uuidToString w hw
    unfold Key.toString Key.new at heq
    simp only at heq
    rw [heq, hw2] at hv
    exact (Option.some.inj hv).symm

theorem key_roundtrip_unique_witness :
    Key.tryFrom BookT (Key.toString (Key.new BookT 12345))
        = .ok (Key.new BookT 12345) ∧ (12345 : Nat) = 12345 :=
  ⟨(key_roundtrip_unique BookT 12345 (by norm_num)).1,
    (key_roundtrip_unique BookT 12345 (by norm_num)).2 12345 (by norm_num) rfl⟩

end AutomergeOrm
